import Mathlib

/-!
# Verification of the yfmos Somfy-RTS codec

A shallow embedding of the codec core of `yfmos.py` (pulse classification,
Manchester decode/encode, the frame-sync state machine driven by
`__parge_B1`, the 7-byte Somfy frame construction in `__gen_payload` /
`__calc_checksum` / `__obfuscate` / `__deobfuscate` / `__to_bitvec`, and the
RfRaw B0 string assembly of `__gen_B0`), together with theorems settling the
specification claims about it.

Conventions of the embedding:
* Python byte values are `ℕ` with explicit masks (`&&& 0xFF`, …) exactly where
  the source masks them.
* The source's `'0'`/`'1'` bit characters (`bin(out)[2:]`, the decoder's
  `bitvec` string) are modelled as `Bool` (bit 1 ↦ `true`); the source's
  `nextBit ^ 1` on the values 0/1 is `Bool.not`.
* A Python dict miss (`KeyError`), an out-of-range index, `int('', 2)` and a
  method call on an uninitialised object — the source's uncaught exceptions —
  are modelled as `Option.none` propagating through the computation.
-/

namespace Yfmos

/-! ## Pulse classification (`__parge_B1`, lines 239–248)

The source tags bucket `i` with a role string through five *independent*
`if` statements executed in order, a later match overwriting an earlier one;
a bucket matching no range is left untagged (the dict entry is never
created). -/

/-- The role strings the source assigns to a bucket
(`'Short'`, `'Long'`, `'HWsync'`, `'SWsync'`, `'InterFrameGap'`). -/
inductive Pulse where
  | short
  | long
  | hwSync
  | swSync
  | interFrameGap
deriving DecidableEq, Repr

/-- `iValue > 448 and iValue < 832` (source line 239). -/
def inShortRange (v : ℕ) : Prop := 448 < v ∧ v < 832

/-- `iValue > 896 and iValue < 1664` (source line 241). -/
def inLongRange (v : ℕ) : Prop := 896 < v ∧ v < 1664

/-- `iValue > 1792 and iValue < 3328` (source line 243). -/
def inHWSyncRange (v : ℕ) : Prop := 1792 < v ∧ v < 3328

/-- `iValue > 3136 and iValue < 5824` (source line 245). -/
def inSWSyncRange (v : ℕ) : Prop := 3136 < v ∧ v < 5824

/-- `iValue > 25000` (source line 247). -/
def inGapRange (v : ℕ) : Prop := 25000 < v

instance (v : ℕ) : Decidable (inShortRange v) := by unfold inShortRange; infer_instance
instance (v : ℕ) : Decidable (inLongRange v) := by unfold inLongRange; infer_instance
instance (v : ℕ) : Decidable (inHWSyncRange v) := by unfold inHWSyncRange; infer_instance
instance (v : ℕ) : Decidable (inSWSyncRange v) := by unfold inSWSyncRange; infer_instance
instance (v : ℕ) : Decidable (inGapRange v) := by unfold inGapRange; infer_instance

/-- Classification of one bucket duration, source lines 239–248: the five
range tests run in order and each match overwrites the previous assignment;
`none` models a bucket whose `pulse[i]` entry is never created. -/
def classify (v : ℕ) : Option Pulse :=
  let p : Option Pulse := none
  let p := if inShortRange v then some .short else p
  let p := if inLongRange v then some .long else p
  let p := if inHWSyncRange v then some .hwSync else p
  let p := if inSWSyncRange v then some .swSync else p
  let p := if inGapRange v then some .interFrameGap else p
  p

/-! ## The 7-byte Somfy frame (`__gen_payload`, `__calc_checksum`,
`__obfuscate`, `__deobfuscate`, `__to_bitvec`) -/

/-- The `Commands` enum of the source: `MY = 0x10`, `UP = 0x20`,
`DOWN = 0x40`, `PROG = 0x80`. -/
inductive Commands where
  | MY
  | UP
  | DOWN
  | PROG
deriving DecidableEq, Repr

/-- The numeric value of a command (`cmd.value`). -/
def Commands.value : Commands → ℕ
  | .MY => 0x10
  | .UP => 0x20
  | .DOWN => 0x40
  | .PROG => 0x80

/-- `__gen_payload(cmd, code, device)`, source lines 387–399: the frame as the
list of its seven byte slots in index order. -/
def genPayload (cmd : Commands) (code device : ℕ) : List ℕ :=
  [0xA1,
   cmd.value &&& 0xF0,
   (code >>> 8) &&& 0xFF,
   code &&& 0xFF,
   (device >>> 16) &&& 0xFF,
   (device >>> 8) &&& 0xFF,
   device &&& 0xFF]

/-- The checksum accumulation loop of `__calc_checksum`, source lines 402–404:
`checksum ^= data[i] ^ (data[i] >> 4)` over all bytes, starting from 0. -/
def checksumFold (data : List ℕ) : ℕ :=
  data.foldl (fun acc b => acc ^^^ b ^^^ (b >>> 4)) 0

/-- `__calc_checksum`, source lines 401–406: fold the frame, then
`data[1] |= checksum & 0x0F`. -/
def calcChecksum (data : List ℕ) : List ℕ :=
  match data with
  | b0 :: b1 :: rest => b0 :: (b1 ||| (checksumFold (b0 :: b1 :: rest) &&& 0x0F)) :: rest
  | other => other

/-- The in-place forward chain of `__obfuscate`, source lines 408–411:
`data[i] ^= data[i-1]` for `i = 1 … len-1`, each byte XORed with the already
obfuscated predecessor. `prev` carries the predecessor's updated value. -/
def obfChain (prev : ℕ) : List ℕ → List ℕ
  | [] => []
  | b :: rest =>
    let b' := b ^^^ prev
    b' :: obfChain b' rest

/-- `__obfuscate(data)`: byte 0 is untouched, the rest is the forward chain. -/
def obfuscate (data : List ℕ) : List ℕ :=
  match data with
  | [] => []
  | b0 :: rest => b0 :: obfChain b0 rest

/-- The pairwise step of `__deobfuscate`: each byte XORed with the *original*
value of its predecessor (`prev` carries the original predecessor, the source
loop runs from the highest index downwards so every read sees the
untouched value). -/
def deobfChain (prev : ℕ) : List ℕ → List ℕ
  | [] => []
  | b :: rest => (b ^^^ prev) :: deobfChain b rest

/-- `__deobfuscate(data)`, source lines 413–416:
`for i in range(len(data)-1, 1, -1): data[i] ^= data[i-1]`.
The loop runs `i = len-1, …, 2` — index 1 is **not** processed — and, going
highest-index-first, every read of `data[i-1]` sees the original value. -/
def deobfuscate (data : List ℕ) : List ℕ :=
  match data with
  | [] => []
  | [b0] => [b0]
  | b0 :: b1 :: rest => b0 :: b1 :: deobfChain b1 rest

/-- The packed 56-bit integer of `__to_bitvec`, source lines 419–420:
`(data[0] << 48) | (data[1] << 40) | … | data[6]`. Positions beyond the
seventh byte of a malformed frame are read as 0. -/
def toBitvecNum (data : List ℕ) : ℕ :=
  (data.getD 0 0) <<< 48 ||| (data.getD 1 0) <<< 40 ||| (data.getD 2 0) <<< 32 |||
  (data.getD 3 0) <<< 24 ||| (data.getD 4 0) <<< 16 ||| (data.getD 5 0) <<< 8 |||
  (data.getD 6 0)

/-- Fuel-driven binary expansion: the digits of `n` in base 2, most
significant first, with no leading zeros (`bin(n)[2:]`, bit 1 ↦ `true`).
Any `fuel ≥ n` yields the exact expansion; the fuel only bounds the
recursion depth. -/
def natBitsAux : ℕ → ℕ → List Bool
  | 0, _ => []
  | fuel + 1, n =>
    if n = 0 then []
    else natBitsAux fuel (n / 2) ++ [decide (n % 2 = 1)]

/-- `bin(n)[2:]` as a list of bits, most significant first (empty for 0,
matching `bin(0)[2:] = '0'` only up to the degenerate zero case, which the
codec never reaches: its inputs always have bit 55 set). -/
def natBits (n : ℕ) : List Bool := natBitsAux n n

/-- `__to_bitvec(data)`, source lines 418–421: the leading-zero-free binary
character string of the packed frame. -/
def toBitvec (data : List ℕ) : List Bool := natBits (toBitvecNum data)

/-! ## Manchester decoder (`ManchesterDecode`, source lines 32–60) -/

/-- The decoder state: `nextBit`, `secondPulse`, the accumulated bit string
`bitvec` (appended left to right, so transmission order = list order) and
`count`. -/
structure Dec where
  nextBit : Bool
  secondPulse : Bool
  bitvec : List Bool
  count : ℕ
deriving DecidableEq, Repr

/-- `ManchesterDecode.init(nextBit, secondPulse)`, source lines 36–40. -/
def Dec.init (nextBit secondPulse : Bool) : Dec :=
  { nextBit := nextBit, secondPulse := secondPulse, bitvec := [], count := 0 }

/-- `addShortPulse`, source lines 43–49: on the second half append
`nextBit` and clear the flag, otherwise just set the flag. -/
def Dec.addShortPulse (d : Dec) : Dec :=
  if d.secondPulse then
    { d with bitvec := d.bitvec ++ [d.nextBit], count := d.count + 1, secondPulse := false }
  else
    { d with secondPulse := true }

/-- `addLongPulse`, source lines 51–57: returns `False` (here `none`) without
touching the state when not awaiting the second half; otherwise appends
`nextBit`, flips it, bumps the count, and leaves `secondPulse` set. -/
def Dec.addLongPulse (d : Dec) : Option Dec :=
  if !d.secondPulse then none
  else some { d with bitvec := d.bitvec ++ [d.nextBit],
                     nextBit := !d.nextBit,
                     count := d.count + 1 }

/-- `int(bitvec, base=2)` on the accumulated bit characters. -/
def bitsToNat (l : List Bool) : ℕ :=
  l.foldl (fun acc b => 2 * acc + (if b then 1 else 0)) 0

/-- `get_bitvector`, source lines 59–60: `int(self.bitvec, base=2)`, which
raises on the empty string (modelled `none`). -/
def Dec.getBitvector (d : Dec) : Option ℕ :=
  if d.bitvec = [] then none else some (bitsToNat d.bitvec)

/-! ## Manchester encoder (`ManchesterEncode`, source lines 63–79) -/

/-- The pairwise walk of `ManchesterEncode.addData`, at the level of the
emitted pulse symbols: compare each bit to the previous one, equal bits emit
the short token twice, differing bits emit the long token once. `prev` is
the reference bit (`prev = bitvec[0]` initially, the first bit itself is
never emitted). -/
def encodeFrom (prev : Bool) : List Bool → List Pulse
  | [] => []
  | b :: rest =>
    (if b = prev then [Pulse.short, Pulse.short] else [Pulse.long]) ++ encodeFrom b rest

/-- The token string one emitted symbol contributes: the short-token string
for each `short` symbol, the long-token string for each `long` symbol
(only those two are ever emitted). -/
def renderTok (shortP longP : String) : Pulse → String
  | .short => shortP
  | .long => longP
  | _ => ""

/-- The encoding loop of `addData` with `prev` the previous bit:
`self.encoded += self.shortPulse * 2` for an equal pair,
`+= self.longPulse` for a differing pair. -/
def addDataGo (shortP longP : String) (prev : Bool) : List Bool → String
  | [] => ""
  | b :: rest => (if b = prev then shortP ++ shortP else longP) ++ addDataGo shortP longP b rest

/-- String-level `addData(bitvec)`, source lines 69–76: `prev = bitvec[0]`,
then the pairwise loop; the empty bit string raises on `bitvec[0]`
(modelled `none`). -/
def addData (shortP longP : String) : List Bool → Option String
  | [] => none
  | b :: rest => some (addDataGo shortP longP b rest)

/-- `get_encoded`, source lines 78–79: `return self.encoded + '3'` — a
hardcoded `'3'` character, regardless of the configured tokens. -/
def getEncoded (encoded : String) : String := encoded ++ "3"

/-- The emitted pulse-symbol sequence of the whole encoder
(`addData` at symbol level): the first bit is the reference point, the rest
of the walk emits the tokens; the empty bit sequence fails on `bitvec[0]`. -/
def encodeSyms : List Bool → Option (List Pulse)
  | [] => none
  | b :: rest => some (encodeFrom b rest)

/-- Token-string concatenation of a sequence of emitted symbols. -/
def renderToks (shortP longP : String) (toks : List Pulse) : String :=
  toks.foldr (fun t acc => renderTok shortP longP t ++ acc) ""

/-- Feeding a sequence of payload pulse symbols to the decoder, as the
`ST_PAYLOAD` arm of `__parge_B1` does (lines 281–286): `Short` calls
`addShortPulse`, `Long` calls `addLongPulse` (whose `False` result aborts
the run, `none`); the encoder never emits any other symbol. -/
def runDec (d : Dec) : List Pulse → Option Dec
  | [] => some d
  | .short :: rest => runDec d.addShortPulse rest
  | .long :: rest => d.addLongPulse.bind fun d' => runDec d' rest
  | _ :: _ => none

/-- The end-of-frame rule at the inter-frame gap, source lines 287–290:
exactly when 55 bits have accumulated, the implied final half-bit
`nextBit` is appended; the accumulated bit string is the result. -/
def gapFinish (d : Dec) : List Bool :=
  if d.count = 55 then d.bitvec ++ [d.nextBit] else d.bitvec

/-- The last bit of a sequence, with a default for the empty one (used to
state the decoder invariant along an encoder stream). -/
def lastBit (dflt : Bool) : List Bool → Bool
  | [] => dflt
  | b :: rest => lastBit b rest

/-! ## The frame-sync state machine (`__parge_B1`, source lines 263–296)

The state is the `States` IntEnum value, an integer the source increments
with `state = state + 1`; we keep it as a `ℕ` with the source's named
constants. The decoder object is created once before the loop and
initialised on the sync-to-payload transition; before that, calling a
decoder method or `get_bitvector` raises (`none`). -/

def ST_UNKNOWN : ℕ := 0
def ST_HW_SYNC4 : ℕ := 4
def ST_SW_SYNC2 : ℕ := 6
def ST_PAYLOAD : ℕ := 7
def ST_DONE : ℕ := 8

/-- The loop state of `__parge_B1`: the sync state and the decoder
(`none` until `decode.init` has run). -/
structure SyncSt where
  st : ℕ
  dec : Option Dec
deriving DecidableEq, Repr

/-- The initial loop state: `state = States.ST_UNKNOWN`, decoder constructed
but uninitialised. -/
def initSync : SyncSt := { st := ST_UNKNOWN, dec := none }

/-- One iteration of the nibble loop, source lines 263–294. `pm` is the
bucket-index-to-role map (`pulse[int(listOfElem[i])]`); a missing entry is a
`KeyError` (`none`). The branch structure mirrors the source's
`if`/`elif` chain exactly. -/
def syncStep (pm : ℕ → Option Pulse) (s : SyncSt) (nib : ℕ) : Option SyncSt :=
  match pm nib with
  | none => none
  | some p =>
    if p = .hwSync then
      -- state = state + 1; if state > ST_HW_SYNC4: state = ST_UNKNOWN
      let st1 := s.st + 1
      some { s with st := if ST_HW_SYNC4 < st1 then ST_UNKNOWN else st1 }
    else if p = .swSync ∧ s.st = ST_HW_SYNC4 then
      some { s with st := ST_SW_SYNC2 }
    else if p = .long ∧ s.st = ST_SW_SYNC2 then
      some { st := ST_PAYLOAD, dec := some (Dec.init true true) }
    else if p = .short ∧ s.st = ST_SW_SYNC2 then
      some { st := ST_PAYLOAD, dec := some (Dec.init false false) }
    else if s.st = ST_PAYLOAD then
      match s.dec with
      | none => none
      | some d =>
        match p with
        | .short => some { s with dec := some d.addShortPulse }
        | .long =>
          match d.addLongPulse with
          | none => some { s with st := ST_UNKNOWN }
          | some d' => some { s with dec := some d' }
        | .interFrameGap =>
          let d' := if d.count = 55 then { d with bitvec := d.bitvec ++ [d.nextBit] } else d
          some { st := ST_DONE, dec := some d' }
        | _ => some { s with st := ST_UNKNOWN }
    else
      some { s with st := ST_UNKNOWN }

/-- The whole nibble loop, threading the `Option` of an uncaught
exception. -/
def runSync (pm : ℕ → Option Pulse) (s0 : Option SyncSt) (nibs : List ℕ) : Option SyncSt :=
  nibs.foldl (fun acc nib => acc.bind (fun s => syncStep pm s nib)) s0

/-- The sequence of loop states (before the first nibble and after each
one); `none` marks the point an exception aborted the loop. -/
def syncTrace (pm : ℕ → Option Pulse) (nibs : List ℕ) : List (Option SyncSt) :=
  nibs.scanl (fun acc nib => acc.bind (fun s => syncStep pm s nib)) (some initSync)

/-- The bucket-index-to-role map built by the first loop of `__parge_B1`
(lines 236–250): bucket `i`'s duration classified; an index with no bucket or
an unclassified bucket has no entry. -/
def pulseMap (buckets : List ℕ) (i : ℕ) : Option Pulse :=
  (buckets.get? i).bind classify

/-- `__parge_B1` after the nibble loop, source lines 301–317: read the bit
vector, split it into 7 bytes, deobfuscate, and extract
`(rollingCode, device)` (the two frame fields the parsed config carries,
besides the buckets and roles it was given). -/
def parseB1 (buckets : List ℕ) (nibs : List ℕ) : Option (ℕ × ℕ) :=
  (runSync (pulseMap buckets) (some initSync) nibs).bind fun s =>
    (s.dec.bind Dec.getBitvector).map fun number =>
      let frame := [(number >>> 48) &&& 0xFF, (number >>> 40) &&& 0xFF,
                    (number >>> 32) &&& 0xFF, (number >>> 24) &&& 0xFF,
                    (number >>> 16) &&& 0xFF, (number >>> 8) &&& 0xFF,
                    number &&& 0xFF]
      let frame := deobfuscate frame
      ((frame.getD 2 0) <<< 8 ||| frame.getD 3 0,
       (frame.getD 4 0) <<< 16 ||| (frame.getD 5 0) <<< 8 ||| frame.getD 6 0)

/-- The default bucket timings of `init` (source lines 166–167), also the
spec's §8 scenario: `[0x9E2, 0x12CA, 0x4F6, 0x28A, 0x6AE0]`. -/
def defaultBuckets : List ℕ := [0x9E2, 0x12CA, 0x4F6, 0x28A, 0x6AE0]

/-! ## RfRaw B0 assembly (`__gen_B0`, source lines 319–356)

Python `'%02X' % n` / `'%04X' % n`: uppercase hexadecimal, zero-padded to at
least the given width (wider if the value needs more digits). -/

/-- The uppercase hex digit for a value below 16. -/
def hexChar (n : ℕ) : Char :=
  if n < 10 then Char.ofNat (48 + n) else Char.ofNat (55 + n)

/-- Fuel-driven hex expansion, most significant digit first, no leading
zeros (empty for 0); any `fuel ≥ n` is exact. -/
def hexAux : ℕ → ℕ → List Char
  | 0, _ => []
  | fuel + 1, n =>
    if n = 0 then []
    else hexAux fuel (n / 16) ++ [hexChar (n % 16)]

/-- `'%0wX' % n`: the hex digits of `n`, zero-padded on the left to at least
`w` characters. -/
def hexPad (w : ℕ) (n : ℕ) : String :=
  let digits := hexAux n n
  String.mk (List.replicate (w - digits.length) '0' ++ digits)

/-- Python string repetition `s * n`. -/
def strRepeat (s : String) : ℕ → String
  | 0 => ""
  | n + 1 => s ++ strRepeat s n

/-- `tmpStr.replace(' ', '')`: replacing every space by the empty string,
i.e. dropping every space character. -/
def stripSpaces (s : String) : String :=
  String.mk (s.data.filter (fun c => c != ' '))

/-- The `tmpStr` format of source lines 344–346:
`'05 %02X %04X %04X %04X %04X %04X %s%s%s%s4' % (repeat, buckets[0…4],
hwSync * 14, swSync, longPulse, dataStr)`. -/
def assembleTmp (rep b0 b1 b2 b3 b4 : ℕ) (hwSync swSync longPulse dataStr : String) : String :=
  "05 " ++ hexPad 2 rep ++ " " ++ hexPad 4 b0 ++ " " ++ hexPad 4 b1 ++ " " ++
  hexPad 4 b2 ++ " " ++ hexPad 4 b3 ++ " " ++ hexPad 4 b4 ++ " " ++
  strRepeat hwSync 14 ++ swSync ++ longPulse ++ dataStr ++ "4"

/-- Source lines 344–349: `strLen = int(len(tmpStr.replace(' ', '')) / 2)`;
`b0String = 'RfRaw AA B0 %02X %s 55' % (strLen, tmpStr)`. -/
def assembleB0 (rep b0 b1 b2 b3 b4 : ℕ) (hwSync swSync longPulse dataStr : String) : String :=
  let tmp := assembleTmp rep b0 b1 b2 b3 b4 hwSync swSync longPulse dataStr
  let strLen := (stripSpaces tmp).length / 2
  "RfRaw AA B0 " ++ hexPad 2 strLen ++ " " ++ tmp ++ " 55"

/-- The profile fields `__gen_B0` reads from the config store: the five
bucket timings, the four pulse tokens, the device id and the stored rolling
code. -/
structure Profile where
  bucket0 : ℕ
  bucket1 : ℕ
  bucket2 : ℕ
  bucket3 : ℕ
  bucket4 : ℕ
  hwSync : String
  swSync : String
  longPulse : String
  shortPulse : String
  device : ℕ
  rollingCode : ℕ
deriving DecidableEq, Repr

/-- The frame pipeline of `__gen_B0`, source lines 333–337: build the
payload with the *incremented* rolling code, checksum it, obfuscate it and
convert it to the bit string. -/
def genBitvec (p : Profile) (cmd : Commands) : List Bool :=
  toBitvec (obfuscate (calcChecksum (genPayload cmd (p.rollingCode + 1) p.device)))

/-- The encoder stage of `__gen_B0`, source lines 339–342:
`encoder.init(longPulse, shortPulse); encoder.addData(bitvec);
dataStr = encoder.get_encoded()`. -/
def genDataStr (p : Profile) (cmd : Commands) : Option String :=
  (addData p.shortPulse p.longPulse (genBitvec p cmd)).map getEncoded

/-- The full B0 command string `__gen_B0` hands to its callback. -/
def genB0String (p : Profile) (cmd : Commands) (rep : ℕ) : Option String :=
  (genDataStr p cmd).map fun dataStr =>
    assembleB0 rep p.bucket0 p.bucket1 p.bucket2 p.bucket3 p.bucket4
      p.hwSync p.swSync p.longPulse dataStr

/-- `__gen_B0`, source lines 319–356, around its callback: the callback runs
on the assembled string (for `run` it is `__exec_B0`, which raises on a
failed transmit); only when it *returns* does the source store the
incremented rolling code and write the config file (lines 354–356). An
exception from the callback propagates (`Except.error`) and the store keeps
the old rolling code. The result is the persisted profile paired with the
outcome. -/
instance exceptDecEq {ε α : Type} [DecidableEq ε] [DecidableEq α] :
    DecidableEq (Except ε α) := fun x y =>
  match x, y with
  | .ok a, .ok b =>
    if h : a = b then isTrue (by rw [h]) else isFalse (by intro hh; cases hh; exact h rfl)
  | .error a, .error b =>
    if h : a = b then isTrue (by rw [h]) else isFalse (by intro hh; cases hh; exact h rfl)
  | .ok _, .error _ => isFalse (by intro hh; cases hh)
  | .error _, .ok _ => isFalse (by intro hh; cases hh)

def genB0 (p : Profile) (cmd : Commands) (rep : ℕ)
    (transmit : String → Except Unit Unit) : Option (Profile × Except Unit String) :=
  (genB0String p cmd rep).map fun b0 =>
    match transmit b0 with
    | .error e => (p, .error e)
    | .ok _ => ({ p with rollingCode := p.rollingCode + 1 }, .ok b0)

/-- Space-separated joining of tokens (used to state the spec's wire-format
grammar as a sequence of space-separated fields). -/
def spaceJoin : List String → String
  | [] => ""
  | [s] => s
  | s :: rest => s ++ " " ++ spaceJoin rest

/-- The RfRaw wire format exactly as claim C8 states it:
`RfRaw AA B0 <len-byte-hex> <repeat:2hex> <bucket0:4hex>…<bucket4:4hex>
<hwsync-token×14><swsync-token><longpulse-token><manchester-payload>4 55`,
with **no** bucket-count field and the length byte covering the body between
the `B0` marker's length byte and the trailing `55` (half its hex-character
count, i.e. its byte count, spaces excluded). Stated from the spec's words,
to be compared with `assembleB0` from the source. -/
def assembleB0Claim (rep b0 b1 b2 b3 b4 : ℕ)
    (hwSync swSync longPulse dataStr : String) : String :=
  let blob := strRepeat hwSync 14 ++ swSync ++ longPulse ++ dataStr ++ "4"
  let body := spaceJoin [hexPad 2 rep, hexPad 4 b0, hexPad 4 b1, hexPad 4 b2,
    hexPad 4 b3, hexPad 4 b4, blob]
  spaceJoin ["RfRaw", "AA", "B0", hexPad 2 ((stripSpaces body).length / 2), body, "55"]

/-- The wire format grammar amended to match the source: identical to the
claim's grammar except that a fixed bucket-count byte `05` follows the
length byte (and is covered by it): `RfRaw AA B0 <len> 05 <repeat:2hex>
<bucket0:4hex>…<bucket4:4hex> <hwsync×14><swsync><longpulse><payload>4 55`,
the length byte being the byte count (half the hex-character count, spaces
excluded) of the body from `05` to just before the `55`. -/
def assembleB0Amended (rep b0 b1 b2 b3 b4 : ℕ)
    (hwSync swSync longPulse dataStr : String) : String :=
  let blob := strRepeat hwSync 14 ++ swSync ++ longPulse ++ dataStr ++ "4"
  let body := spaceJoin ["05", hexPad 2 rep, hexPad 4 b0, hexPad 4 b1, hexPad 4 b2,
    hexPad 4 b3, hexPad 4 b4, blob]
  spaceJoin ["RfRaw", "AA", "B0", hexPad 2 ((stripSpaces body).length / 2), body, "55"]

/-- A sample profile with the default bucket timings and token indices that
`init` stores (source lines 162–167 and 186–187), the spec §8 scenario
device id, and stored rolling code 4 (so the next transmission uses 5). -/
def sampleProfile : Profile :=
  { bucket0 := 0x9E2, bucket1 := 0x12CA, bucket2 := 0x4F6, bucket3 := 0x28A,
    bucket4 := 0x6AE0, hwSync := "0", swSync := "1", longPulse := "2",
    shortPulse := "3", device := 0xC0FFEE, rollingCode := 4 }

/-! ## Helper lemmas -/

theorem natBitsAux_zero (fuel : ℕ) : natBitsAux fuel 0 = [] := by
  cases fuel <;> simp [natBitsAux]

theorem natBitsAux_spec (k : ℕ) : ∀ (fuel n : ℕ), 2 ^ k ≤ n → n < 2 ^ (k + 1) →
    n ≤ fuel → (natBitsAux fuel n).length = k + 1 ∧ (natBitsAux fuel n).head? = some true := by
  induction k with
  | zero =>
    intro fuel n hlo hhi hfuel
    have hn : n = 1 := by omega
    subst hn
    obtain ⟨f, rfl⟩ : ∃ f, fuel = f + 1 := ⟨fuel - 1, by omega⟩
    simp [natBitsAux, natBitsAux_zero]
  | succ k ih =>
    intro fuel n hlo hhi hfuel
    have h2 : 2 ^ (k + 1) = 2 * 2 ^ k := by ring
    have h3 : 2 ^ (k + 2) = 2 * 2 ^ (k + 1) := by ring
    have hn2 : 2 ≤ n := by
      have : 2 ≤ 2 ^ (k + 1) := by
        calc 2 = 2 ^ 1 := by norm_num
        _ ≤ 2 ^ (k + 1) := Nat.pow_le_pow_right (by norm_num) (by omega)
      omega
    obtain ⟨f, rfl⟩ : ∃ f, fuel = f + 1 := ⟨fuel - 1, by omega⟩
    have hne : n ≠ 0 := by omega
    have hdlo : 2 ^ k ≤ n / 2 := by omega
    have hdhi : n / 2 < 2 ^ (k + 1) := by omega
    have hdf : n / 2 ≤ f := by omega
    obtain ⟨hlen, hhead⟩ := ih f (n / 2) hdlo hdhi hdf
    have hnil : natBitsAux f (n / 2) ≠ [] := by
      intro h
      rw [h] at hlen
      simp at hlen
    constructor
    · simp [natBitsAux, hne, hlen]
    · simp only [natBitsAux, hne, if_false]
      rw [List.head?_append_of_ne_nil _ hnil]
      exact hhead

/-! ## C1 — obfuscation round-trip -/

/-- C1: the round-trip `deobfuscate(obfuscate(f)) == f` fails on the code.
`__deobfuscate` iterates `range(len(data)-1, 1, -1)`, i.e. `i = 6 … 2`,
never processing index 1, so byte 1 of the round-tripped frame stays XORed
with byte 0. Evaluated here at the spec §8 scenario frame
`[0xA1, 0x20, 0x00, 0x05, 0xC0, 0xFF, 0xEE]` (command UP, rolling code 5,
device 0xC0FFEE, before the checksum nibble): the round-trip returns
`0x81 = 0x20 ^^^ 0xA1` in byte 1 and restores every other byte. -/
theorem deobfuscate_obfuscate_skips_byte1 :
    deobfuscate (obfuscate [0xA1, 0x20, 0x00, 0x05, 0xC0, 0xFF, 0xEE]) =
      [0xA1, 0x20 ^^^ 0xA1, 0x00, 0x05, 0xC0, 0xFF, 0xEE] ∧
    deobfuscate (obfuscate [0xA1, 0x20, 0x00, 0x05, 0xC0, 0xFF, 0xEE]) ≠
      [0xA1, 0x20, 0x00, 0x05, 0xC0, 0xFF, 0xEE] := by
  constructor
  · decide
  · decide

/-! ## C2 / C9 — pulse classification -/

/-- C2 counterexample: the claim as stated is false on the code. At duration
3200 both the HardwareSync range and the SoftwareSync range match — the
ranges are not disjoint — and the sequential overwrite leaves `SWsync`; at
duration 100 no range matches and the code assigns *no* role at all (the
`pulse` dict entry is never created, there is no `Unknown`), so a later use
of that bucket raises `KeyError` instead of classifying as Unknown. -/
theorem classify_claim_counterexample :
    inHWSyncRange 3200 ∧ inSWSyncRange 3200 ∧ classify 3200 = some .swSync ∧
    classify 100 = none := by
  refine ⟨by decide, by decide, by decide, by decide⟩

/-- C2 (amended): classification is a pure function of the duration that
returns *at most* one role: the five range tests run in order with later
assignments overwriting earlier ones, so on the HardwareSync/SoftwareSync
overlap `3136 < v < 3328` the result is `SWsync`; and a duration matching no
range yields no classification at all (`none` — there is no Unknown role),
precisely on the gaps `v ≤ 448`, `832 ≤ v ≤ 896`, `1664 ≤ v ≤ 1792` and
`5824 ≤ v ≤ 25000`. -/
theorem classify_characterization (v : ℕ) :
    (3136 < v → v < 3328 → classify v = some .swSync) ∧
    (classify v = none ↔
      v ≤ 448 ∨ (832 ≤ v ∧ v ≤ 896) ∨ (1664 ≤ v ∧ v ≤ 1792) ∨
      (5824 ≤ v ∧ v ≤ 25000)) := by
  unfold classify inShortRange inLongRange inHWSyncRange inSWSyncRange inGapRange
  constructor
  · intro h1 h2
    split_ifs <;> first | rfl | omega
  · split_ifs <;> simp <;> omega

/-- C2 witness: the amended theorem applied at duration 3200. -/
theorem classify_characterization_witness :
    (3136 < 3200 ∧ 3200 < 3328) ∧ classify 3200 = some .swSync :=
  ⟨by decide, (classify_characterization 3200).1 (by decide) (by decide)⟩

/-- C9: every duration strictly between 3136 and 3328 lies in both the
HardwareSync range (1792–3328) and the SoftwareSync range (3136–5824), and
classifies as SoftwareSync because the `SWsync` assignment runs after — and
overwrites — the `HWsync` assignment. -/
theorem overlap_yields_swSync (v : ℕ) (h1 : 3136 < v) (h2 : v < 3328) :
    inHWSyncRange v ∧ inSWSyncRange v ∧ classify v = some .swSync := by
  refine ⟨⟨by omega, by omega⟩, ⟨by omega, by omega⟩, ?_⟩
  unfold classify inShortRange inLongRange inHWSyncRange inSWSyncRange inGapRange
  split_ifs <;> first | rfl | omega

/-- C9 witness: the theorem applied at duration 3200. -/
theorem overlap_yields_swSync_witness :
    inHWSyncRange 3200 ∧ inSWSyncRange 3200 ∧ classify 3200 = some .swSync :=
  overlap_yields_swSync 3200 (by decide) (by decide)

/-! ## C3 — checksum invariant -/

theorem xor_left_comm' (a b c : ℕ) : a ^^^ (b ^^^ c) = b ^^^ (a ^^^ c) := by
  rw [← Nat.xor_assoc, Nat.xor_comm a b, Nat.xor_assoc]

/-- XORing a value with its own masked low bits zeroes them:
`(c ^^^ (c &&& m)) &&& m = 0`. -/
theorem xor_and_self_mask (c m : ℕ) : (c ^^^ (c &&& m)) &&& m = 0 := by
  rw [Nat.and_xor_distrib_right, Nat.and_assoc, Nat.and_self, Nat.xor_self]

/-- Disjoint bits let `|||` act as `^^^`. -/
theorem or_eq_xor_of_and_eq_zero {a b : ℕ} (h : a &&& b = 0) : a ||| b = a ^^^ b := by
  apply Nat.eq_of_testBit_eq
  intro i
  have hb : (a &&& b).testBit i = false := by rw [h]; simp
  rw [Nat.testBit_and] at hb
  simp only [Nat.testBit_or, Nat.testBit_xor]
  cases ha : a.testBit i <;> cases hbb : b.testBit i <;> simp_all

/-- A value below 16 has no bits at positions ≥ 4, so XORing it in does not
change the result of `>>> 4`. -/
theorem xor_lt16_shiftRight4 (b k : ℕ) (hk : k < 16) : (b ^^^ k) >>> 4 = b >>> 4 := by
  apply Nat.eq_of_testBit_eq
  intro i
  have hkbit : k.testBit (4 + i) = false :=
    Nat.testBit_eq_false_of_lt (by calc k < 16 := hk
      _ = 2 ^ 4 := by norm_num
      _ ≤ 2 ^ (4 + i) := Nat.pow_le_pow_right (by norm_num) (by omega))
  simp [Nat.testBit_shiftRight, Nat.testBit_xor, hkbit]

/-- Inserting the low nibble of the fold into a slot whose low nibble is
clear makes the whole fold's low nibble vanish: the generic core of
`__calc_checksum`'s self-validation. -/
theorem checksumFold_insert (x0 x2 x3 x4 x5 x6 b1 : ℕ) (h : b1 &&& 15 = 0) :
    checksumFold [x0, b1 ||| (checksumFold [x0, b1, x2, x3, x4, x5, x6] &&& 15),
       x2, x3, x4, x5, x6] &&& 15 = 0 := by
  set c := checksumFold [x0, b1, x2, x3, x4, x5, x6] with hc
  set k := c &&& 15 with hk
  have hk16 : k < 16 := by
    have : k ≤ 15 := Nat.and_le_right
    omega
  have hbk : b1 &&& k = 0 := by
    rw [hk, Nat.and_comm c 15, ← Nat.and_assoc, h, Nat.zero_and]
  rw [or_eq_xor_of_and_eq_zero hbk]
  have hshift : (b1 ^^^ k) >>> 4 = b1 >>> 4 := xor_lt16_shiftRight4 b1 k hk16
  have hfold : checksumFold [x0, b1 ^^^ k, x2, x3, x4, x5, x6] = c ^^^ k := by
    rw [hc]
    simp only [checksumFold, List.foldl, hshift]
    simp [Nat.xor_assoc, Nat.xor_comm, xor_left_comm']
  rw [hfold, hk, xor_and_self_mask]

/-- C3 counterexample: the claim as stated is false on the code. For
command UP, rolling code 0, device 0 the built frame is
`[0xA1, 0x20, 0, 0, 0, 0, 0]`, the checksum nibble 9 is ORed into byte 1
(giving `0x29`), but recomputing the checksum fold over the **completed**
frame yields low nibble 0, not the stored 9: the stored nibble cancels
itself out of the fold. -/
theorem checksum_recompute_counterexample :
    calcChecksum (genPayload .UP 0 0) = [0xA1, 0x29, 0, 0, 0, 0, 0] ∧
    (calcChecksum (genPayload .UP 0 0)).getD 1 0 &&& 0xF = 9 ∧
    checksumFold (calcChecksum (genPayload .UP 0 0)) &&& 0xF = 0 ∧
    (9 : ℕ) ≠ 0 := by
  refine ⟨by decide, by decide, by decide, by decide⟩

/-- C3 (amended): for every frame built by `build` and completed by the
checksum step, the checksum fold recomputed over the completed, unobfuscated
frame has low nibble 0 — the frame self-validates, the stored nibble
cancelling itself — and the nibble stored in byte 1's low nibble equals the
fold computed over the frame *before* the checksum nibble was inserted. -/
theorem checksum_self_validates (cmd : Commands) (code device : ℕ) :
    checksumFold (calcChecksum (genPayload cmd code device)) &&& 0xF = 0 ∧
    (calcChecksum (genPayload cmd code device)).getD 1 0 &&& 0xF =
      checksumFold (genPayload cmd code device) &&& 0xF := by
  have hb1 : (cmd.value &&& 0xF0) &&& 15 = 0 := by
    rw [Nat.and_assoc]
    have h240 : (0xF0 &&& 15 : ℕ) = 0 := by decide
    rw [h240, Nat.and_zero]
  constructor
  · exact checksumFold_insert _ _ _ _ _ _ _ hb1
  · show ((cmd.value &&& 0xF0) ||| (checksumFold (genPayload cmd code device) &&& 0x0F)) &&& 0xF = _
    rw [Nat.and_distrib_right, hb1, Nat.zero_or, Nat.and_assoc]
    have h15 : (0x0F &&& 0xF : ℕ) = 0xF := by decide
    rw [h15]

/-! ## C4 / C5 — Manchester encoder and round-trip -/

theorem dropLast_cons_append_lastBit (a : Bool) (l : List Bool) :
    (a :: l).dropLast ++ [lastBit a l] = a :: l := by
  induction l generalizing a with
  | nil => simp [lastBit]
  | cons b l' ih =>
    show (a :: b :: l').dropLast ++ [lastBit b l'] = a :: b :: l'
    rw [List.dropLast_cons₂, List.cons_append, ih b]

/-- The decoder invariant along an encoder token stream: starting at a bit
boundary (`secondPulse = true`) with `nextBit` equal to the reference bit,
the run consumes every emitted token, ends at a bit boundary with `nextBit`
the last bit of the sequence, and appends exactly all bits but the last. -/
theorem runDec_encodeFrom : ∀ (rest : List Bool) (prev : Bool) (acc : List Bool) (c : ℕ),
    runDec ⟨prev, true, acc, c⟩ (encodeFrom prev rest) =
      some ⟨lastBit prev rest, true, acc ++ (prev :: rest).dropLast, c + rest.length⟩ := by
  intro rest
  induction rest with
  | nil => intro prev acc c; simp [encodeFrom, runDec, lastBit]
  | cons b rest' ih =>
    intro prev acc c
    by_cases hb : b = prev
    · subst hb
      simp only [encodeFrom, if_pos rfl, List.cons_append, List.nil_append]
      show runDec (Dec.addShortPulse ⟨b, true, acc, c⟩) (Pulse.short :: encodeFrom b rest') = _
      simp only [Dec.addShortPulse, if_pos rfl]
      show runDec (Dec.addShortPulse ⟨b, false, acc ++ [b], c + 1⟩) (encodeFrom b rest') = _
      simp only [Dec.addShortPulse, Bool.false_eq_true, if_false]
      rw [ih b (acc ++ [b]) (c + 1)]
      show _ = some ⟨lastBit b rest', true, acc ++ (b :: b :: rest').dropLast, c + (rest'.length + 1)⟩
      rw [List.dropLast_cons₂]
      simp [List.append_assoc]
      omega
    · simp only [encodeFrom, if_neg hb, List.cons_append, List.nil_append]
      show (Dec.addLongPulse ⟨prev, true, acc, c⟩).bind
          (fun d' => runDec d' (encodeFrom b rest')) = _
      simp only [Dec.addLongPulse, Bool.not_true, Bool.false_eq_true, if_false,
        Option.some_bind]
      have hnot : (!prev) = b := by
        cases prev <;> cases b <;> simp_all
      rw [hnot, ih b (acc ++ [prev]) (c + 1)]
      show _ = some ⟨lastBit b rest', true, acc ++ (prev :: b :: rest').dropLast,
        c + (rest'.length + 1)⟩
      rw [List.dropLast_cons₂]
      simp [List.append_assoc]
      omega

/-- C4 counterexample: the claim as stated is false on the code. For the
bit sequence `b = [1, 1]` the encoder emits `Short, Short`; the
initial-bit/awaiting-half convention corresponding to a first Short token is
`init(0, False)` (source line 280), and feeding the emitted symbols to a
decoder so seeded, then applying the end-of-frame rule at the gap, yields
the single bit `[0]`, not `b`: the first Short only sets the awaiting flag,
the second appends the wrong seed bit 0, and the gap appends nothing since
only 1 bit (not 55) accumulated. -/
theorem manchester_roundtrip_counterexample :
    encodeSyms [true, true] = some [Pulse.short, Pulse.short] ∧
    (runDec (Dec.init false false) [Pulse.short, Pulse.short]).map gapFinish =
      some [false] ∧
    some [false] ≠ some [true, true] := by
  refine ⟨by decide, by decide, by decide⟩

/-- C4 (amended): for every bit sequence of length exactly 56 whose first
bit is 1, feeding the encoder's emitted Long/Short symbols into a fresh
decoder seeded `init(1, True)` — the seeding the sync machine performs when
a Long pulse terminates the sync phase, and the transmit format always
places a Long token immediately before the encoder output — and then
applying the end-of-frame rule at the inter-frame gap (append the expected
bit exactly when 55 bits accumulated) reconstructs exactly the original
sequence. -/
theorem manchester_roundtrip (b : List Bool) (h56 : b.length = 56)
    (h1 : b.head? = some true) :
    (encodeSyms b).bind (fun toks => (runDec (Dec.init true true) toks).map gapFinish) =
      some b := by
  obtain ⟨b0, rest, rfl⟩ : ∃ b0 rest, b = b0 :: rest := by
    cases b with
    | nil => simp at h1
    | cons x l => exact ⟨x, l, rfl⟩
  have hb0 : b0 = true := by simpa using h1
  subst hb0
  have hlen : rest.length = 55 := by simpa using h56
  simp only [encodeSyms, Option.bind_some]
  show (runDec ⟨true, true, [], 0⟩ (encodeFrom true rest)).map gapFinish = _
  rw [runDec_encodeFrom rest true [] 0]
  simp only [Option.map_some, gapFinish, hlen, List.nil_append]
  norm_num
  exact dropLast_cons_append_lastBit true rest

/-- C4 witness: the amended round-trip at the concrete 56-bit sequence
`1` followed by 55 zeros. -/
theorem manchester_roundtrip_witness :
    ((true :: List.replicate 55 false).length = 56 ∧
      (true :: List.replicate 55 false).head? = some true) ∧
    (encodeSyms (true :: List.replicate 55 false)).bind
        (fun toks => (runDec (Dec.init true true) toks).map gapFinish) =
      some (true :: List.replicate 55 false) :=
  ⟨⟨by decide, by decide⟩,
    manchester_roundtrip (true :: List.replicate 55 false) (by decide) (by decide)⟩

/-- The string the encoding loop accumulates is the rendering of the
emitted symbol sequence. -/
theorem addDataGo_eq_renderToks (shortP longP : String) :
    ∀ (l : List Bool) (prev : Bool),
      addDataGo shortP longP prev l =
        renderToks shortP longP (encodeFrom prev l) := by
  intro l
  induction l with
  | nil => intro prev; simp [addDataGo, encodeFrom, renderToks]
  | cons b rest ih =>
    intro prev
    by_cases hb : b = prev <;>
      simp [addDataGo, encodeFrom, renderToks, hb, ih, renderTok, String.append_assoc]

/-- C5 counterexample: the claim as stated is false on the code. With short
token `"7"`, long token `"5"` and bits `[1, 1]`, the pairwise walk emits the
short token twice, concatenating to `"77"`, but the returned output
(`get_encoded`) is `"773"`: a hardcoded `'3'` character is appended after
the emitted tokens. -/
theorem encoder_output_counterexample :
    addData "7" "5" [true, true] = some "77" ∧
    (addData "7" "5" [true, true]).map getEncoded = some "773" ∧
    ("773" : String) ≠ "77" := by
  refine ⟨by decide, by decide, by decide⟩

/-- C5 (amended): for every non-empty bit sequence the encoder walks the
sequence pairwise — equal neighbours emit the short token twice, differing
neighbours the long token once, the first bit only a reference point — and
the returned output equals the concatenation of the tokens so emitted
*followed by the fixed character `'3'`* (a hardcoded Short bucket index);
for the empty bit sequence it fails (uncaught index error on `bitvec[0]`,
modelled `none`). -/
theorem encoder_output_spec (shortP longP : String) (bits : List Bool) :
    (addData shortP longP bits).map getEncoded =
      bits.head?.map (fun b =>
        renderToks shortP longP (encodeFrom b bits.tail) ++ "3") := by
  cases bits with
  | nil => simp [addData]
  | cons b rest =>
    simp [addData, getEncoded, addDataGo_eq_renderToks]

/-! ## C6 — captures that never complete a frame -/

theorem runSync_start_none (pm : ℕ → Option Pulse) (nibs : List ℕ) :
    runSync pm none nibs = none := by
  induction nibs with
  | nil => rfl
  | cons n rest ih => simpa [runSync, List.foldl_cons] using ih

theorem all_scanl_head {α β : Type} (f : β → α → β) (b : β) (l : List α) (p : β → Bool)
    (h : (List.scanl f b l).all p = true) : p b = true := by
  cases l <;> simp [List.scanl] at h <;> tauto

/-- A step taken with an uninitialised decoder that does not move into the
Payload state leaves the decoder uninitialised: the decoder is only
initialised on the two sync-to-payload transitions, and only touched inside
the Payload arm (which with an uninitialised decoder would raise). -/
theorem syncStep_dec_none (pm : ℕ → Option Pulse) (s : SyncSt) (nib : ℕ) (t : SyncSt)
    (hdec : s.dec = none) (hstep : syncStep pm s nib = some t)
    (hts : t.st ≠ ST_PAYLOAD) : t.dec = none := by
  unfold syncStep at hstep
  rcases hpm : pm nib with _ | p
  · rw [hpm] at hstep
    cases hstep
  · rw [hpm] at hstep
    simp only at hstep
    split_ifs at hstep
    all_goals try (cases hstep; simpa using hdec)
    all_goals try (cases hstep; exact absurd rfl hts)
    all_goals simp [hdec] at hstep

/-- Along any capture whose sync-state trace never visits Payload, the
decoder stays uninitialised (or the loop aborts on an exception). -/
theorem runSync_dec_none (pm : ℕ → Option Pulse) :
    ∀ (nibs : List ℕ) (s : SyncSt), s.dec = none →
      ((List.scanl (fun acc nib => acc.bind (fun u => syncStep pm u nib)) (some s) nibs).all
        (fun o => o.all (fun u => u.st != ST_PAYLOAD)) = true) →
      runSync pm (some s) nibs = none ∨
        ∃ t, runSync pm (some s) nibs = some t ∧ t.dec = none := by
  intro nibs
  induction nibs with
  | nil =>
    intro s hdec _
    exact Or.inr ⟨s, rfl, hdec⟩
  | cons n rest ih =>
    intro s hdec htr
    rw [List.scanl_cons, List.singleton_append, List.all_cons, Bool.and_eq_true] at htr
    obtain ⟨_, htr'⟩ := htr
    have hstep_eq : ((some s).bind fun u => syncStep pm u n) = syncStep pm s n :=
      Option.some_bind _ _
    have hrun : runSync pm (some s) (n :: rest) =
        runSync pm (syncStep pm s n) rest := by
      simp [runSync, List.foldl_cons]
    cases hstep : syncStep pm s n with
    | none =>
      left
      rw [hrun, hstep]
      exact runSync_start_none pm rest
    | some t =>
      rw [hstep_eq, hstep] at htr'
      have hts : t.st ≠ ST_PAYLOAD := by
        have h2 := all_scanl_head _ (some t) rest _ htr'
        simpa using h2
      have htdec : t.dec = none := syncStep_dec_none pm s n t hdec hstep hts
      rw [hrun, hstep]
      exact ih t htdec htr'

/-- C6 counterexample: the claim as stated is false on the code. The capture
with the default buckets and nibble stream `0 0 0 0 1 2 2` (four
HardwareSync, one SoftwareSync, a sync-terminating Long, one payload Long)
never drives the state machine to Done — the trace ends in `ST_PAYLOAD`
because no inter-frame gap ever arrives — yet `__parge_B1` does not fail:
it happily converts the single accumulated bit and returns a parsed config
with rolling code 0 and device id 1. No `NoFrameFound` error exists in the
code. -/
theorem parseB1_partial_success_counterexample :
    ((syncTrace (pulseMap defaultBuckets) [0, 0, 0, 0, 1, 2, 2]).all
        (fun o => o.all (fun t => t.st != ST_DONE)) = true) ∧
    parseB1 defaultBuckets [0, 0, 0, 0, 1, 2, 2] = some (0, 1) := by
  refine ⟨by decide, by decide⟩

/-- C6 (amended): a capture whose classified pulse sequence never drives
the sync state machine into the Payload state does make the decode
operation fail — but with an uncaught exception (`int('', 2)` on the empty
bit string, or a `KeyError`), not a `NoFrameFound` report; and a capture
that reaches Payload without ever reaching Done is not an error at all: the
parse returns a config computed from the partial bit stream (see the
counterexample). -/
theorem parseB1_none_of_never_payload (buckets nibs : List ℕ)
    (h : (syncTrace (pulseMap buckets) nibs).all
        (fun o => o.all (fun t => t.st != ST_PAYLOAD)) = true) :
    parseB1 buckets nibs = none := by
  rcases runSync_dec_none (pulseMap buckets) nibs initSync rfl h with hr | ⟨t, hr, htd⟩
  · unfold parseB1
    rw [hr]
    rfl
  · unfold parseB1
    rw [hr]
    simp [htd]

/-- C6 witness: the amended theorem applied to the capture with the default
buckets and nibble stream `0 0 0` (three HardwareSync pulses, never any
sync completion): the parse fails. -/
theorem parseB1_none_of_never_payload_witness :
    ((syncTrace (pulseMap defaultBuckets) [0, 0, 0]).all
        (fun o => o.all (fun t => t.st != ST_PAYLOAD)) = true) ∧
    parseB1 defaultBuckets [0, 0, 0] = none :=
  ⟨by decide, parseB1_none_of_never_payload defaultBuckets [0, 0, 0] (by decide)⟩

/-! ## C7 — rolling-code increment and persistence -/

/-- Splitting a value into the two bytes the frame stores and recombining
them the way `__parge_B1` does recovers the value modulo 2¹⁶. -/
theorem bytes_recombine (c : ℕ) :
    (((c >>> 8) &&& 0xFF) <<< 8) ||| (c &&& 0xFF) = c % 65536 := by
  apply Nat.eq_of_testBit_eq
  intro i
  have h255 : (0xFF : ℕ) = 2 ^ 8 - 1 := by norm_num
  have h65536 : (65536 : ℕ) = 2 ^ 16 := by norm_num
  rw [h255, h65536]
  simp only [Nat.testBit_or, Nat.testBit_shiftLeft, Nat.testBit_and,
    Nat.testBit_shiftRight, Nat.testBit_mod_two_pow, Nat.testBit_two_pow_sub_one]
  rcases Nat.lt_or_ge i 8 with h8 | h8
  · have hn8 : ¬(8 ≤ i) := by omega
    have h16 : i < 16 := by omega
    simp [hn8, h8, h16]
  · have hi : 8 + (i - 8) = i := by omega
    rcases Nat.lt_or_ge i 16 with h16 | h16
    · have hd : i - 8 < 8 := by omega
      have hn8 : ¬(i < 8) := by omega
      simp [h8, hi, hd, h16, hn8]
    · have h1 : ¬(i - 8 < 8) := by omega
      have h2 : ¬(i < 8) := by omega
      have h3 : ¬(i < 16) := by omega
      simp [h8, hi, h1, h2, h3]

/-- C7 counterexample: the claim as stated is false on the code. With the
sample profile (stored rolling code 4) and a transmit callback that fails —
as `__exec_B0` does by raising on any non-200 status — `__gen_B0` never
reaches the persistence lines 354–356: the exception propagates and the
persisted profile still carries rolling code 4, not the incremented 5 the
claim requires "regardless of whether the transmit call succeeds or
fails". -/
theorem rolling_code_unpersisted_counterexample :
    genB0 sampleProfile .UP 1 (fun _ => .error ()) = some (sampleProfile, .error ()) ∧
    sampleProfile.rollingCode = 4 ∧
    ({ sampleProfile with rollingCode := 5 } : Profile) ≠ sampleProfile := by
  refine ⟨by decide, by decide, by decide⟩

/-- C7 (amended): on every `gen`/`run` invocation over an existing profile
the rolling code placed in the frame is the stored code plus exactly 1 (its
two frame bytes recombine to `stored + 1` modulo 2¹⁶), and the incremented
value is persisted **only when the transmit callback returns**: a successful
callback yields the profile with the code bumped, while a callback that
raises (a failed transmit) leaves the persisted profile unchanged. -/
theorem genB0_rolling_code (p : Profile) (cmd : Commands) (rep : ℕ)
    (transmit : String → Except Unit Unit) (b0 : String)
    (hb : genB0String p cmd rep = some b0) :
    ((genPayload cmd (p.rollingCode + 1) p.device).getD 2 0) <<< 8 |||
        (genPayload cmd (p.rollingCode + 1) p.device).getD 3 0 =
      (p.rollingCode + 1) % 65536 ∧
    (transmit b0 = .ok () → genB0 p cmd rep transmit =
        some ({ p with rollingCode := p.rollingCode + 1 }, .ok b0)) ∧
    (∀ e, transmit b0 = .error e → genB0 p cmd rep transmit = some (p, .error e)) := by
  refine ⟨bytes_recombine (p.rollingCode + 1), ?_, ?_⟩
  · intro hok
    unfold genB0
    rw [hb]
    simp [hok]
  · intro e herr
    unfold genB0
    rw [hb]
    simp [herr]

set_option maxRecDepth 8192 in
/-- C7 witness: the amended theorem at the sample profile (stored rolling
code 4), command UP, repeat 1, with a succeeding transmit: the generated
string is the concrete B0 command for rolling code 5, and the persisted
profile carries rolling code 5. -/
theorem genB0_rolling_code_witness :
    genB0String sampleProfile .UP 1 =
      some ("RfRaw AA B0 3E 05 01 09E2 12CA 04F6 028A 6AE0 000000000000001222233333323" ++
        "3233333333332332333333333323323333332233332233332233222333322332222222234 55") ∧
    genB0 sampleProfile .UP 1 (fun _ => .ok ()) =
      some ({ sampleProfile with rollingCode := sampleProfile.rollingCode + 1 },
        .ok ("RfRaw AA B0 3E 05 01 09E2 12CA 04F6 028A 6AE0 000000000000001222233333323" ++
          "3233333333332332333333333323323333332233332233332233222333322332222222234 55")) :=
  ⟨by decide,
    (genB0_rolling_code sampleProfile .UP 1 (fun _ => .ok ()) _ (by decide)).2.1 rfl⟩

/-! ## C8 — the RfRaw B0 wire format -/

/-- Merging two adjacent literal tokens inside a right-associated
concatenation. -/
theorem lit_merge {a b c : String} (h : a ++ b = c) (R : String) :
    a ++ (b ++ R) = c ++ R := by
  rw [← String.append_assoc, h]

/-- C8 counterexample: the claim as stated is false on the code. At repeat
count 1, the default buckets and the sample tokens, the string `__gen_B0`
assembles is not the one the claimed grammar produces: the source emits a
bucket-count byte `05` between the length byte and the repeat count (and
counts it in the length byte), which the claimed grammar omits. -/
theorem assembleB0_claim_counterexample :
    assembleB0 1 0x9E2 0x12CA 0x4F6 0x28A 0x6AE0 "0" "1" "2" "d" ≠
      assembleB0Claim 1 0x9E2 0x12CA 0x4F6 0x28A 0x6AE0 "0" "1" "2" "d" := by
  decide

/-- C8 (amended): the transmit string assembled by `gen` matches exactly the
grammar `RfRaw AA B0 <len-byte-hex> 05 <repeat:2hex>
<bucket0:4hex>…<bucket4:4hex> <hwsync-token×14><swsync-token>
<longpulse-token><manchester-payload>4 55` — the claimed grammar with the
fixed bucket-count byte `05` inserted after the length byte — where the
length byte is the byte count (half the hex-character count, spaces
excluded) of the body between the length byte and the trailing `55`. -/
theorem assembleB0_matches_amended_grammar (rep b0 b1 b2 b3 b4 : ℕ)
    (hw sw long dataStr : String) :
    assembleB0 rep b0 b1 b2 b3 b4 hw sw long dataStr =
      assembleB0Amended rep b0 b1 b2 b3 b4 hw sw long dataStr := by
  have hbody : spaceJoin ["05", hexPad 2 rep, hexPad 4 b0, hexPad 4 b1, hexPad 4 b2,
      hexPad 4 b3, hexPad 4 b4, strRepeat hw 14 ++ sw ++ long ++ dataStr ++ "4"] =
      assembleTmp rep b0 b1 b2 b3 b4 hw sw long dataStr := by
    simp only [spaceJoin, assembleTmp, String.append_assoc,
      lit_merge (show ("05" : String) ++ " " = "05 " from rfl)]
  unfold assembleB0 assembleB0Amended
  dsimp only
  rw [hbody]
  simp only [spaceJoin, String.append_assoc,
    lit_merge (show ("RfRaw" : String) ++ " " = "RfRaw " from rfl),
    lit_merge (show ("RfRaw " : String) ++ "AA" = "RfRaw AA" from rfl),
    lit_merge (show ("RfRaw AA" : String) ++ " " = "RfRaw AA " from rfl),
    lit_merge (show ("RfRaw AA " : String) ++ "B0" = "RfRaw AA B0" from rfl),
    lit_merge (show ("RfRaw AA B0" : String) ++ " " = "RfRaw AA B0 " from rfl),
    lit_merge (show (" " : String) ++ "55" = " 55" from rfl),
    show (" " : String) ++ "55" = " 55" from rfl]

/-! ## C10 — the bit string handed to the encoder -/

theorem shiftLeft_lt_two_pow_56 {x : ℕ} (hx : x < 256) {k : ℕ} (hk : k ≤ 48) :
    x <<< k < 2 ^ 56 := by
  rw [Nat.shiftLeft_eq]
  have hx8 : x < 2 ^ 8 := by
    rw [show (2 : ℕ) ^ 8 = 256 from by norm_num]
    exact hx
  calc x * 2 ^ k < 2 ^ 8 * 2 ^ k :=
        (Nat.mul_lt_mul_right (pow_pos (by norm_num) k)).mpr hx8
    _ ≤ 2 ^ 8 * 2 ^ 48 := Nat.mul_le_mul_left _ (Nat.pow_le_pow_right (by norm_num) hk)
    _ = 2 ^ 56 := by norm_num

theorem getD_lt_256 (d : List ℕ) (hb : ∀ x ∈ d, x < 256) (i : ℕ) : d.getD i 0 < 256 := by
  rw [List.getD_eq_getElem?_getD]
  cases hget : d[i]? with
  | none => simp
  | some x =>
    have hx : x ∈ d := List.getElem?_mem hget
    simpa using hb x hx

/-- For any frame whose byte 0 is the fixed `0xA1` and whose bytes are all
below 256, the packed 56-bit value lies in `[2^55, 2^56)`, so its
leading-zero-free binary expansion has exactly 56 digits and starts with a
set bit. -/
theorem toBitvec_spec (d : List ℕ) (h0 : d.getD 0 0 = 0xA1) (hb : ∀ x ∈ d, x < 256) :
    (toBitvec d).length = 56 ∧ (toBitvec d).head? = some true := by
  have hup : toBitvecNum d < 2 ^ 56 := by
    unfold toBitvecNum
    have g := getD_lt_256 d hb
    refine Nat.or_lt_two_pow (Nat.or_lt_two_pow (Nat.or_lt_two_pow (Nat.or_lt_two_pow
      (Nat.or_lt_two_pow (Nat.or_lt_two_pow ?_ ?_) ?_) ?_) ?_) ?_) ?_
    · exact shiftLeft_lt_two_pow_56 (g 0) (by norm_num)
    · exact shiftLeft_lt_two_pow_56 (g 1) (by norm_num)
    · exact shiftLeft_lt_two_pow_56 (g 2) (by norm_num)
    · exact shiftLeft_lt_two_pow_56 (g 3) (by norm_num)
    · exact shiftLeft_lt_two_pow_56 (g 4) (by norm_num)
    · exact shiftLeft_lt_two_pow_56 (g 5) (by norm_num)
    · exact lt_trans (g 6) (by norm_num)
  have hbit : Nat.testBit (toBitvecNum d) 55 = true := by
    unfold toBitvecNum
    rw [h0]
    simp only [Nat.testBit_or]
    rw [show Nat.testBit (0xA1 <<< 48) 55 = true from by decide]
    simp
  have hlo : 2 ^ 55 ≤ toBitvecNum d := Nat.testBit_implies_ge hbit
  have := natBitsAux_spec 55 (toBitvecNum d) (toBitvecNum d) hlo hup (Nat.le_refl _)
  exact this

/-- C10: for every frame produced by `build` then `checksum` then
`obfuscate`, the binary bit string handed to the Manchester encoder has
exactly 56 characters and begins with `'1'`: byte 0 is the constant `0xA1`
(the checksum step writes only byte 1, obfuscation starts at index 1), so
bit 55 of the packed value is set and the leading-zero-stripping conversion
`bin(out)[2:]` never shortens the frame. -/
theorem built_frame_bitvec_length (cmd : Commands) (code device : ℕ) :
    (toBitvec (obfuscate (calcChecksum (genPayload cmd code device)))).length = 56 ∧
    (toBitvec (obfuscate (calcChecksum (genPayload cmd code device)))).head? = some true := by
  apply toBitvec_spec
  · simp [genPayload, calcChecksum, obfuscate]
  · have h256 : (256 : ℕ) = 2 ^ 8 := by norm_num
    have hxor : ∀ a b : ℕ, a < 256 → b < 256 → a ^^^ b < 256 := by
      intro a b ha hb2
      rw [h256] at ha hb2 ⊢
      exact Nat.xor_lt_two_pow ha hb2
    have hor : ∀ a b : ℕ, a < 256 → b < 256 → a ||| b < 256 := by
      intro a b ha hb2
      rw [h256] at ha hb2 ⊢
      exact Nat.or_lt_two_pow ha hb2
    have handFF : ∀ a : ℕ, a &&& 0xFF < 256 :=
      fun a => lt_of_le_of_lt Nat.and_le_right (by norm_num)
    have handF0 : ∀ a : ℕ, a &&& 0xF0 < 256 :=
      fun a => lt_of_le_of_lt Nat.and_le_right (by norm_num)
    have hand0F : ∀ a : ℕ, a &&& 0x0F < 256 :=
      fun a => lt_of_le_of_lt Nat.and_le_right (by norm_num)
    have hA1 : (0xA1 : ℕ) < 256 := by norm_num
    simp only [genPayload, calcChecksum, obfuscate, obfChain]
    intro x hx
    simp only [List.mem_cons, List.not_mem_nil, or_false] at hx
    rcases hx with rfl | rfl | rfl | rfl | rfl | rfl | rfl
    · exact hA1
    · exact hxor _ _ (hor _ _ (handF0 _) (hand0F _)) hA1
    · exact hxor _ _ (handFF _) (hxor _ _ (hor _ _ (handF0 _) (hand0F _)) hA1)
    · exact hxor _ _ (handFF _) (hxor _ _ (handFF _)
        (hxor _ _ (hor _ _ (handF0 _) (hand0F _)) hA1))
    · exact hxor _ _ (handFF _) (hxor _ _ (handFF _) (hxor _ _ (handFF _)
        (hxor _ _ (hor _ _ (handF0 _) (hand0F _)) hA1)))
    · exact hxor _ _ (handFF _) (hxor _ _ (handFF _) (hxor _ _ (handFF _)
        (hxor _ _ (handFF _) (hxor _ _ (hor _ _ (handF0 _) (hand0F _)) hA1))))
    · exact hxor _ _ (handFF _) (hxor _ _ (handFF _) (hxor _ _ (handFF _)
        (hxor _ _ (handFF _) (hxor _ _ (handFF _)
          (hxor _ _ (hor _ _ (handF0 _) (hand0F _)) hA1)))))

end Yfmos
